import Mathlib

/-
Verification development for the bvh repository (a binary bounding volume
hierarchy library).

Scalar model.  The source computes with f64.  Every finite f64 value is a
rational number, and the only nonfinite values the verified algorithms rely
on are the two infinities (produced by 1.0/0.0 in Ray::new and propagated by
multiplication with nonzero finite values).  The model therefore uses an
extended-rational scalar XReal = negInf | fin q | posInf with exact
arithmetic.  The IEEE NaN-producing operations (0 * inf, inf - inf,
inf + (-inf)) are given arbitrary total values; every theorem below is
stated on (or evaluated at) inputs where no NaN arises in the source, so the
choice never matters.  Vector components of origins, directions and boxes
are plain rationals; only the cached inverse direction of a ray can be
infinite.
-/

/-
Rational arithmetic in this development must evaluate inside the kernel
(concrete witnesses are checked with decide); the library marks the core
rational operations irreducible for performance, which blocks that, so their
default reducibility is restored locally.
-/
set_option allowUnsafeReducibility true
attribute [local semireducible] Rat.add Rat.sub Rat.mul Rat.inv Rat.ofScientific

inductive XReal where
  | negInf : XReal
  | fin : ℚ → XReal
  | posInf : XReal
deriving DecidableEq

/-- Strict less-than on the scalar model, as IEEE compares non-NaN values. -/
def XReal.blt : XReal → XReal → Bool
  | XReal.negInf, XReal.negInf => false
  | XReal.negInf, _ => true
  | _, XReal.negInf => false
  | XReal.fin a, XReal.fin b => decide (a < b)
  | XReal.fin _, XReal.posInf => true
  | XReal.posInf, _ => false

/-- Non-strict comparison on the scalar model, as IEEE compares non-NaN values. -/
def XReal.ble : XReal → XReal → Bool
  | XReal.negInf, _ => true
  | XReal.fin _, XReal.negInf => false
  | XReal.fin a, XReal.fin b => decide (a ≤ b)
  | XReal.fin _, XReal.posInf => true
  | XReal.posInf, XReal.posInf => true
  | XReal.posInf, _ => false

instance : LT XReal := ⟨fun a b => XReal.blt a b = true⟩

instance : LE XReal := ⟨fun a b => XReal.ble a b = true⟩

instance XReal.decidableLT : DecidableRel (fun a b : XReal => a < b) :=
fun a b => inferInstanceAs (Decidable (XReal.blt a b = true))

instance XReal.decidableLE : DecidableRel (fun a b : XReal => a ≤ b) :=
fun a b => inferInstanceAs (Decidable (XReal.ble a b = true))

/-- f64::min on non-NaN inputs; also the shape of the source's
`if y < x { x = y }` minimum updates. -/
def XReal.minV (a b : XReal) : XReal := if XReal.blt b a then b else a

/-- f64::max on non-NaN inputs; also the shape of the source's
`if y > x { x = y }` maximum updates. -/
def XReal.maxV (a b : XReal) : XReal := if XReal.blt a b then b else a

/-- Product of a finite value with a scalar, as IEEE multiplies when no NaN
arises; the NaN case 0 * inf is mapped to 0 and never exercised. -/
def XReal.mulQ (q : ℚ) : XReal → XReal
  | XReal.fin a => XReal.fin (q * a)
  | XReal.posInf =>
      if 0 < q then XReal.posInf else if q < 0 then XReal.negInf else XReal.fin 0
  | XReal.negInf =>
      if 0 < q then XReal.negInf else if q < 0 then XReal.posInf else XReal.fin 0

/-- Full product on the scalar model (NaN cases mapped to 0, never exercised). -/
def XReal.mul : XReal → XReal → XReal
  | XReal.fin a, x => XReal.mulQ a x
  | XReal.posInf, XReal.fin b => XReal.mulQ b XReal.posInf
  | XReal.posInf, XReal.posInf => XReal.posInf
  | XReal.posInf, XReal.negInf => XReal.negInf
  | XReal.negInf, XReal.fin b => XReal.mulQ b XReal.negInf
  | XReal.negInf, XReal.posInf => XReal.negInf
  | XReal.negInf, XReal.negInf => XReal.posInf

/-- Sum on the scalar model (the NaN case inf + (-inf) mapped to 0, never
exercised). -/
def XReal.add : XReal → XReal → XReal
  | XReal.fin a, XReal.fin b => XReal.fin (a + b)
  | XReal.fin _, XReal.posInf => XReal.posInf
  | XReal.fin _, XReal.negInf => XReal.negInf
  | XReal.posInf, XReal.fin _ => XReal.posInf
  | XReal.posInf, XReal.posInf => XReal.posInf
  | XReal.posInf, XReal.negInf => XReal.fin 0
  | XReal.negInf, XReal.fin _ => XReal.negInf
  | XReal.negInf, XReal.negInf => XReal.negInf
  | XReal.negInf, XReal.posInf => XReal.fin 0

/-- IEEE 1/x for a finite x that is not a negative zero: 1/0 is +inf, as
produced by Ray::new for a zero direction component. -/
def recipQ (q : ℚ) : XReal := if q = 0 then XReal.posInf else XReal.fin q⁻¹

/-- Modelled from the spec (the Vector3/Point3 type is the glam DVec3
external collaborator): a 3-component vector with exact rational
components. -/
structure Vec3 where
  x : ℚ
  y : ℚ
  z : ℚ
deriving DecidableEq

def Vec3.zero : Vec3 := ⟨0, 0, 0⟩

def Vec3.sub (a b : Vec3) : Vec3 := ⟨a.x - b.x, a.y - b.y, a.z - b.z⟩

def Vec3.smul (t : ℚ) (a : Vec3) : Vec3 := ⟨t * a.x, t * a.y, t * a.z⟩

def Vec3.dot (a b : Vec3) : ℚ := a.x * b.x + a.y * b.y + a.z * b.z

def Vec3.cross (a b : Vec3) : Vec3 :=
⟨a.y * b.z - a.z * b.y, a.z * b.x - a.x * b.z, a.x * b.y - a.y * b.x⟩

/-- A vector of cached scalars; the inverse direction of a ray may have
infinite components. -/
structure XVec3 where
  x : XReal
  y : XReal
  z : XReal
deriving DecidableEq

/-- Modelled from the spec (aabb.rs is not under src/): an AABB is two
points min and max. -/
structure AABB where
  min : Vec3
  max : Vec3
deriving DecidableEq

/-- aabb[i] in the source: index 0 is the min corner, index 1 the max corner
(the sign bits of a ray select the near corner this way). -/
def AABB.corner (b : AABB) (i : ℕ) : Vec3 := if i = 0 then b.min else b.max

/-- The AABB invariant of the spec: min at most max on every axis. -/
def AABB.wf (b : AABB) : Prop :=
b.min.x ≤ b.max.x ∧ b.min.y ≤ b.max.y ∧ b.min.z ≤ b.max.z

/-- Modelled from the spec: join is the componentwise min/max union of two
AABBs (aabb.rs is not under src/). -/
def AABB.join (a b : AABB) : AABB :=
⟨⟨Min.min a.min.x b.min.x, Min.min a.min.y b.min.y, Min.min a.min.z b.min.z⟩,
 ⟨Max.max a.max.x b.max.x, Max.max a.max.y b.max.y, Max.max a.max.z b.max.z⟩⟩

/-- Geometric containment of one AABB in another, componentwise. -/
def AABB.containedIn (inner outer : AABB) : Prop :=
outer.min.x ≤ inner.min.x ∧ outer.min.y ≤ inner.min.y ∧ outer.min.z ≤ inner.min.z ∧
inner.max.x ≤ outer.max.x ∧ inner.max.y ≤ outer.max.y ∧ inner.max.z ≤ outer.max.z

/-- EPSILON of lib.rs (0.00001). -/
def EPSILON : ℚ := 1 / 100000

/-- The Ray struct of shapes/ray.rs: origin, direction, cached inverse
direction and the three per-axis sign bits. -/
structure Ray where
  origin : Vec3
  direction : Vec3
  inv_direction : XVec3
  sign_x : ℕ
  sign_y : ℕ
  sign_z : ℕ
deriving DecidableEq

/-- Ray::new for a direction that already has length 1; for such a direction
glam's normalize is the identity in exact arithmetic, so the constructor
reduces to caching the reciprocals and the sign bits.  (The general
constructor, which needs a square root, is modelled over the reals further
below for the claim about Ray::new itself.) -/
def mkRayU (o d : Vec3) : Ray :=
{ origin := o
  direction := d
  inv_direction := ⟨recipQ d.x, recipQ d.y, recipQ d.z⟩
  sign_x := if d.x < 0 then 1 else 0
  sign_y := if d.y < 0 then 1 else 0
  sign_z := if d.z < 0 then 1 else 0 }

/-- The rays produced by Ray::new: the cached inverse direction and sign
bits agree with the stored direction. -/
def Ray.Consistent (r : Ray) : Prop :=
r.inv_direction =
    ⟨recipQ r.direction.x, recipQ r.direction.y, recipQ r.direction.z⟩ ∧
r.sign_x = (if r.direction.x < 0 then 1 else 0) ∧
r.sign_y = (if r.direction.y < 0 then 1 else 0) ∧
r.sign_z = (if r.direction.z < 0 then 1 else 0)

/-- A ray none of whose direction components is zero: on such rays the
cached inverse direction is finite and the f64 computation of the source is
exact rational arithmetic (no infinities, no NaN). -/
def Ray.NonDeg (r : Ray) : Prop :=
r.direction.x ≠ 0 ∧ r.direction.y ≠ 0 ∧ r.direction.z ≠ 0

/-- ray_min of intersects_aabb, x axis: (aabb[sign_x].x - origin.x) * inv.x. -/
def Ray.x_min (r : Ray) (b : AABB) : XReal :=
XReal.mulQ ((b.corner r.sign_x).x - r.origin.x) r.inv_direction.x

/-- ray_max of intersects_aabb, x axis: (aabb[1-sign_x].x - origin.x) * inv.x. -/
def Ray.x_max (r : Ray) (b : AABB) : XReal :=
XReal.mulQ ((b.corner (1 - r.sign_x)).x - r.origin.x) r.inv_direction.x

def Ray.y_min (r : Ray) (b : AABB) : XReal :=
XReal.mulQ ((b.corner r.sign_y).y - r.origin.y) r.inv_direction.y

def Ray.y_max (r : Ray) (b : AABB) : XReal :=
XReal.mulQ ((b.corner (1 - r.sign_y)).y - r.origin.y) r.inv_direction.y

def Ray.z_min (r : Ray) (b : AABB) : XReal :=
XReal.mulQ ((b.corner r.sign_z).z - r.origin.z) r.inv_direction.z

def Ray.z_max (r : Ray) (b : AABB) : XReal :=
XReal.mulQ ((b.corner (1 - r.sign_z)).z - r.origin.z) r.inv_direction.z

/-- Ray::intersects_aabb (shapes/ray.rs, the optimized slab/sign-table
algorithm).  The in-place minimum/maximum updates of the source are written
with minV/maxV, whose if-shape is exactly the source's. -/
def Ray.intersects_aabb (r : Ray) (b : AABB) : Bool :=
if XReal.blt (r.y_max b) (r.x_min b) || XReal.blt (r.x_max b) (r.y_min b) then false
else if XReal.blt (r.z_max b) (XReal.maxV (r.x_min b) (r.y_min b))
    || XReal.blt (XReal.minV (r.x_max b) (r.y_max b)) (r.z_min b) then false
else XReal.blt (XReal.fin 0)
    (XReal.minV (XReal.minV (r.x_max b) (r.y_max b)) (r.z_max b))

/-- hit_min_x of intersects_aabb_naive (also tx1 of the branchless form). -/
def Ray.hit_min_x (r : Ray) (b : AABB) : XReal :=
XReal.mulQ (b.min.x - r.origin.x) r.inv_direction.x

def Ray.hit_max_x (r : Ray) (b : AABB) : XReal :=
XReal.mulQ (b.max.x - r.origin.x) r.inv_direction.x

def Ray.hit_min_y (r : Ray) (b : AABB) : XReal :=
XReal.mulQ (b.min.y - r.origin.y) r.inv_direction.y

def Ray.hit_max_y (r : Ray) (b : AABB) : XReal :=
XReal.mulQ (b.max.y - r.origin.y) r.inv_direction.y

def Ray.hit_min_z (r : Ray) (b : AABB) : XReal :=
XReal.mulQ (b.min.z - r.origin.z) r.inv_direction.z

def Ray.hit_max_z (r : Ray) (b : AABB) : XReal :=
XReal.mulQ (b.max.z - r.origin.z) r.inv_direction.z

/-- Ray::intersects_aabb_naive (shapes/ray.rs). -/
def Ray.intersects_aabb_naive (r : Ray) (b : AABB) : Bool :=
let x_entry := XReal.minV (r.hit_min_x b) (r.hit_max_x b)
let y_entry := XReal.minV (r.hit_min_y b) (r.hit_max_y b)
let z_entry := XReal.minV (r.hit_min_z b) (r.hit_max_z b)
let x_exit := XReal.maxV (r.hit_min_x b) (r.hit_max_x b)
let y_exit := XReal.maxV (r.hit_min_y b) (r.hit_max_y b)
let z_exit := XReal.maxV (r.hit_min_z b) (r.hit_max_z b)
let latest_entry := XReal.maxV (XReal.maxV x_entry y_entry) z_entry
let earliest_exit := XReal.minV (XReal.minV x_exit y_exit) z_exit
XReal.blt latest_entry earliest_exit && XReal.blt (XReal.fin 0) earliest_exit

/-- Ray::intersects_aabb_branchless (shapes/ray.rs). -/
def Ray.intersects_aabb_branchless (r : Ray) (b : AABB) : Bool :=
let tmin0 := XReal.minV (r.hit_min_x b) (r.hit_max_x b)
let tmax0 := XReal.maxV (r.hit_min_x b) (r.hit_max_x b)
let tmin1 := XReal.maxV tmin0 (XReal.minV (r.hit_min_y b) (r.hit_max_y b))
let tmax1 := XReal.minV tmax0 (XReal.maxV (r.hit_min_y b) (r.hit_max_y b))
let tmin2 := XReal.maxV tmin1 (XReal.minV (r.hit_min_z b) (r.hit_max_z b))
let tmax2 := XReal.minV tmax1 (XReal.maxV (r.hit_min_z b) (r.hit_max_z b))
XReal.ble tmin2 tmax2 && XReal.ble (XReal.fin 0) tmax2

/-- Ray::intersects_aabb_dist (shapes/ray.rs): the same slab computation as
intersects_aabb, returning the squared length of (x_min, y_min, z_min)
unless the final interval check (ray_max < 0) rejects. -/
def Ray.intersects_aabb_dist (r : Ray) (b : AABB) : Option XReal :=
if XReal.blt (r.y_max b) (r.x_min b) || XReal.blt (r.x_max b) (r.y_min b) then none
else if XReal.blt (r.z_max b) (XReal.maxV (r.x_min b) (r.y_min b))
    || XReal.blt (XReal.minV (r.x_max b) (r.y_max b)) (r.z_min b) then none
else if XReal.blt (XReal.minV (XReal.minV (r.x_max b) (r.y_max b)) (r.z_max b))
    (XReal.fin 0) then none
else some (XReal.add (XReal.mul (r.x_min b) (r.x_min b))
    (XReal.add (XReal.mul (r.y_min b) (r.y_min b))
      (XReal.mul (r.z_min b) (r.z_min b))))

/-- The running lower end of the slab intersection, max of the three
per-axis near parameters (the quantity intersects_aabb tracks as ray_min). -/
def Ray.t_near_max (r : Ray) (b : AABB) : XReal :=
XReal.maxV (XReal.maxV (r.x_min b) (r.y_min b)) (r.z_min b)

/-- The running upper end of the slab intersection, min of the three
per-axis far parameters (the quantity intersects_aabb tracks as ray_max). -/
def Ray.t_far_min (r : Ray) (b : AABB) : XReal :=
XReal.minV (XReal.minV (r.x_max b) (r.y_max b)) (r.z_max b)

/-- The Intersection struct of shapes/ray.rs. -/
structure Intersection where
  distance : XReal
  u : ℚ
  v : ℚ
  norm : Vec3
  back_face : Bool
deriving DecidableEq

/-- The Moeller-Trumbore determinant of intersects_triangle:
(b - a) . (direction x (c - a)). -/
def Ray.tri_det (r : Ray) (a b c : Vec3) : ℚ :=
Vec3.dot (Vec3.sub b a) (Vec3.cross r.direction (Vec3.sub c a))

/-- The u parameter of intersects_triangle (meaningful once det >= EPSILON). -/
def Ray.tri_u (r : Ray) (a b c : Vec3) : ℚ :=
Vec3.dot (Vec3.sub r.origin a) (Vec3.cross r.direction (Vec3.sub c a)) *
  (1 / r.tri_det a b c)

/-- The v parameter of intersects_triangle. -/
def Ray.tri_v (r : Ray) (a b c : Vec3) : ℚ :=
Vec3.dot r.direction (Vec3.cross (Vec3.sub r.origin a) (Vec3.sub b a)) *
  (1 / r.tri_det a b c)

/-- The candidate distance of intersects_triangle. -/
def Ray.tri_dist (r : Ray) (a b c : Vec3) : ℚ :=
Vec3.dot (Vec3.sub c a) (Vec3.cross (Vec3.sub r.origin a) (Vec3.sub b a)) *
  (1 / r.tri_det a b c)

/-- Ray::intersects_triangle (shapes/ray.rs): Moeller-Trumbore with backface
culling; every early return carries distance +inf and back_face false.  The
local let-bindings of the source are the named tri_ definitions above. -/
def Ray.intersects_triangle (r : Ray) (a b c : Vec3) : Intersection :=
if r.tri_det a b c < EPSILON then
  ⟨XReal.posInf, 0, 0, Vec3.zero, false⟩
else if ¬(0 ≤ r.tri_u a b c ∧ r.tri_u a b c ≤ 1) then
  ⟨XReal.posInf, r.tri_u a b c, 0, Vec3.zero, false⟩
else if r.tri_v a b c < 0 ∨ r.tri_u a b c + r.tri_v a b c > 1 then
  ⟨XReal.posInf, r.tri_u a b c, r.tri_v a b c, Vec3.zero, false⟩
else if EPSILON < r.tri_dist a b c then
  ⟨XReal.fin (r.tri_dist a b c), r.tri_u a b c, r.tri_v a b c,
    Vec3.cross (Vec3.sub b a) (Vec3.sub c a), false⟩
else
  ⟨XReal.posInf, r.tri_u a b c, r.tri_v a b c, Vec3.zero, false⟩

/-- Proof-layer abbreviation: the smaller of the two x-axis slab parameters
(equal to x_min for a consistent nondegenerate ray over a wf box). -/
def Ray.qnx (r : Ray) (b : AABB) : ℚ :=
min ((b.min.x - r.origin.x) * r.direction.x⁻¹) ((b.max.x - r.origin.x) * r.direction.x⁻¹)

def Ray.qfx (r : Ray) (b : AABB) : ℚ :=
max ((b.min.x - r.origin.x) * r.direction.x⁻¹) ((b.max.x - r.origin.x) * r.direction.x⁻¹)

def Ray.qny (r : Ray) (b : AABB) : ℚ :=
min ((b.min.y - r.origin.y) * r.direction.y⁻¹) ((b.max.y - r.origin.y) * r.direction.y⁻¹)

def Ray.qfy (r : Ray) (b : AABB) : ℚ :=
max ((b.min.y - r.origin.y) * r.direction.y⁻¹) ((b.max.y - r.origin.y) * r.direction.y⁻¹)

def Ray.qnz (r : Ray) (b : AABB) : ℚ :=
min ((b.min.z - r.origin.z) * r.direction.z⁻¹) ((b.max.z - r.origin.z) * r.direction.z⁻¹)

def Ray.qfz (r : Ray) (b : AABB) : ℚ :=
max ((b.min.z - r.origin.z) * r.direction.z⁻¹) ((b.max.z - r.origin.z) * r.direction.z⁻¹)

/-
BVH tree and traversal.  The build and traversal code of the repository
(bvh.rs) is not under src/; the tree shape and the recursive traversal are
modelled from the spec.
-/

/-- Modelled from the spec: a binary BVH over shape indices.  An internal
node stores one AABB per child, on the parent (spec section 3, BVHNode). -/
inductive BVHTree where
  | leaf : ℕ → BVHTree
  | node : AABB → BVHTree → AABB → BVHTree → BVHTree
deriving DecidableEq

/-- The shape indices at the leaves, left to right. -/
def BVHTree.shapes : BVHTree → List ℕ
  | BVHTree.leaf s => [s]
  | BVHTree.node _ l _ r => BVHTree.shapes l ++ BVHTree.shapes r

/-- The union of the AABBs of the shapes under a subtree. -/
def BVHTree.bound (sh : ℕ → AABB) : BVHTree → AABB
  | BVHTree.leaf s => sh s
  | BVHTree.node _ l _ r => AABB.join (BVHTree.bound sh l) (BVHTree.bound sh r)

/-- Modelled from the spec: the invariant the build establishes (spec
sections 3 and 4.3): each stored child AABB is the union of the AABBs of the
shapes of that child's subtree. -/
def BVHTree.Inv (sh : ℕ → AABB) : BVHTree → Prop
  | BVHTree.leaf _ => True
  | BVHTree.node aL l aR r =>
      aL = BVHTree.bound sh l ∧ aR = BVHTree.bound sh r ∧
      BVHTree.Inv sh l ∧ BVHTree.Inv sh r

instance BVHTree.decidableInv (sh : ℕ → AABB) :
    (t : BVHTree) → Decidable (BVHTree.Inv sh t)
  | BVHTree.leaf _ => Decidable.isTrue trivial
  | BVHTree.node aL l aR r =>
      haveI := BVHTree.decidableInv sh l
      haveI := BVHTree.decidableInv sh r
      inferInstanceAs (Decidable (aL = BVHTree.bound sh l ∧ aR = BVHTree.bound sh r ∧
        BVHTree.Inv sh l ∧ BVHTree.Inv sh r))

/-- Modelled from the spec (section 4.4, recursive collection): below the
root, a child subtree is entered when its parent-held AABB passes the query,
and a leaf emits its shape unconditionally. -/
def BVHTree.collect (ray : Ray) (sh : ℕ → AABB) : BVHTree → List ℕ
  | BVHTree.leaf s => [s]
  | BVHTree.node aL l aR r =>
      (if ray.intersects_aabb aL then BVHTree.collect ray sh l else []) ++
      (if ray.intersects_aabb aR then BVHTree.collect ray sh r else [])

/-- Modelled from the spec: traverse.  A tree that is a single leaf has no
parent-held AABB; its AABB is derived directly from the primitive and tested
there (spec section 4.4). -/
def BVHTree.traverse (ray : Ray) (sh : ℕ → AABB) : BVHTree → List ℕ
  | BVHTree.leaf s => if ray.intersects_aabb (sh s) then [s] else []
  | BVHTree.node aL l aR r => BVHTree.collect ray sh (BVHTree.node aL l aR r)

/-
The FFI query functions of lib.rs.  All five (query_ray, query_sphere,
query_capsule, query_aabb, query_obb) share one output loop: iterate the
traversal matches, write each into the output buffer while the running
index is below the capacity, count every match, return the count.  The
match sequence produced by traverse_iterator (bvh.rs, not under src/) is
abstracted as the input list.
-/

/-- buffer[i] = x. -/
def bufWrite (buf : ℕ → ℕ) (i : ℕ) (x : ℕ) : ℕ → ℕ :=
fun j => if j = i then x else buf j

/-- The loop body of the query functions: state is the running index i and
the buffer. -/
def queryLoop (maxRes : ℕ) : List ℕ → ℕ → (ℕ → ℕ) → ℕ × (ℕ → ℕ)
  | [], i, buf => (i, buf)
  | x :: xs, i, buf =>
      queryLoop maxRes xs (i + 1) (if i < maxRes then bufWrite buf i x else buf)

/-- The shared result loop of query_ray, query_sphere, query_capsule,
query_aabb and query_obb in lib.rs, applied to the list of traversal
matches: returns the final count and the final buffer. -/
def runQuery (ms : List ℕ) (maxRes : ℕ) (buf : ℕ → ℕ) : ℕ × (ℕ → ℕ) :=
queryLoop maxRes ms 0 buf

/-
BVHBounds and its BHShape impl (lib.rs).  The index field is an i32; the
node index accessors cast usize to i32 and back with Rust as-casts, which
wrap.  Machine integers are modelled as Nat/Int with the wrap-around
explicit.
-/

/-- Rust (n : usize) as i32: keep the low 32 bits, two's complement. -/
def usizeToI32 (n : ℕ) : ℤ :=
if n % 2 ^ 32 < 2 ^ 31 then ((n % 2 ^ 32 : ℕ) : ℤ) else ((n % 2 ^ 32 : ℕ) : ℤ) - 2 ^ 32

/-- Rust (z : i32) as usize: sign-extend to 64 bits and reinterpret. -/
def i32ToUsize (z : ℤ) : ℕ := (z % 2 ^ 64).toNat

/-- The BVHBounds struct of lib.rs: bounds (center and extents), the i32
node index field, and the ptr field. -/
structure BVHBounds where
  center : Vec3
  extents : Vec3
  index : ℤ
  ptr : ℤ
deriving DecidableEq

/-- BHShape::set_bh_node_index for BVHBounds: self.index = index as i32. -/
def BVHBounds.set_bh_node_index (b : BVHBounds) (i : ℕ) : BVHBounds :=
{ b with index := usizeToI32 i }

/-- BHShape::bh_node_index for BVHBounds: self.index as usize. -/
def BVHBounds.bh_node_index (b : BVHBounds) : ℕ := i32ToUsize b.index

/-
Ray::new in general normalizes its direction, which needs a square root;
that constructor is modelled over the reals (the spec treats components as
real-valued).  Only the claim about Ray::new itself uses this model.
-/

/-- A real-valued 3-vector, for the Ray::new model. -/
structure RVec3 where
  x : ℝ
  y : ℝ
  z : ℝ

def RVec3.dot (a b : RVec3) : ℝ := a.x * b.x + a.y * b.y + a.z * b.z

noncomputable def RVec3.length (v : RVec3) : ℝ := Real.sqrt (RVec3.dot v v)

/-- glam normalize: the vector scaled by the reciprocal of its length. -/
noncomputable def RVec3.normalize (v : RVec3) : RVec3 :=
⟨v.x * (1 / RVec3.length v), v.y * (1 / RVec3.length v), v.z * (1 / RVec3.length v)⟩

/-- The Ray struct over real scalars (for the constructor model). -/
structure RRay where
  origin : RVec3
  direction : RVec3
  inv_direction : RVec3
  sign_x : ℕ
  sign_y : ℕ
  sign_z : ℕ

/-- Ray::new (shapes/ray.rs): normalize the direction, cache the
componentwise reciprocal and the three sign bits of the normalized
direction. -/
noncomputable def RRay.new (o d : RVec3) : RRay :=
{ origin := o
  direction := RVec3.normalize d
  inv_direction := ⟨1 / (RVec3.normalize d).x, 1 / (RVec3.normalize d).y,
    1 / (RVec3.normalize d).z⟩
  sign_x := if (RVec3.normalize d).x < 0 then 1 else 0
  sign_y := if (RVec3.normalize d).y < 0 then 1 else 0
  sign_z := if (RVec3.normalize d).z < 0 then 1 else 0 }

/-- A concrete two-shape scene for evaluating the traversal theorem. -/
def sampleShapes : ℕ → AABB :=
fun j => if j = 0 then ⟨⟨1, 1, 1⟩, ⟨2, 2, 2⟩⟩ else ⟨⟨5, -1, -1⟩, ⟨6, 1, 1⟩⟩

/-- A built tree over sampleShapes: each stored child AABB is the child
shape's own AABB. -/
def sampleTree : BVHTree :=
BVHTree.node ⟨⟨1, 1, 1⟩, ⟨2, 2, 2⟩⟩ (BVHTree.leaf 0)
  ⟨⟨5, -1, -1⟩, ⟨6, 1, 1⟩⟩ (BVHTree.leaf 1)

/-- A concrete nondegenerate unit-direction ray. -/
def sampleRay : Ray := mkRayU ⟨0, 0, 0⟩ ⟨1/3, 2/3, 2/3⟩

instance Ray.decidableConsistent (r : Ray) : Decidable (Ray.Consistent r) :=
inferInstanceAs (Decidable (r.inv_direction =
    ⟨recipQ r.direction.x, recipQ r.direction.y, recipQ r.direction.z⟩ ∧
  r.sign_x = (if r.direction.x < 0 then 1 else 0) ∧
  r.sign_y = (if r.direction.y < 0 then 1 else 0) ∧
  r.sign_z = (if r.direction.z < 0 then 1 else 0)))

instance Ray.decidableNonDeg (r : Ray) : Decidable (Ray.NonDeg r) :=
inferInstanceAs (Decidable (r.direction.x ≠ 0 ∧ r.direction.y ≠ 0 ∧ r.direction.z ≠ 0))

instance AABB.decidableWf (b : AABB) : Decidable (AABB.wf b) :=
inferInstanceAs (Decidable (b.min.x ≤ b.max.x ∧ b.min.y ≤ b.max.y ∧ b.min.z ≤ b.max.z))

instance AABB.decidableContainedIn (a b : AABB) : Decidable (AABB.containedIn a b) :=
inferInstanceAs (Decidable (b.min.x ≤ a.min.x ∧ b.min.y ≤ a.min.y ∧ b.min.z ≤ a.min.z ∧
  a.max.x ≤ b.max.x ∧ a.max.y ≤ b.max.y ∧ a.max.z ≤ b.max.z))

/-
Helper lemmas.
-/

theorem bool_eq_of_iff : ∀ (x y : Bool), (x = true ↔ y = true) → x = y := by decide

theorem XReal.blt_fin_fin (a b : ℚ) :
    XReal.blt (XReal.fin a) (XReal.fin b) = decide (a < b) := rfl

theorem XReal.ble_fin_fin (a b : ℚ) :
    XReal.ble (XReal.fin a) (XReal.fin b) = decide (a ≤ b) := rfl

theorem XReal.minV_fin_fin (a b : ℚ) :
    XReal.minV (XReal.fin a) (XReal.fin b) = XReal.fin (Min.min a b) := by
  rw [XReal.minV, XReal.blt_fin_fin]
  by_cases h : b < a
  · rw [if_pos (by simpa using h), min_eq_right (le_of_lt h)]
  · rw [if_neg (by simpa using h), min_eq_left (le_of_not_lt h)]

theorem XReal.maxV_fin_fin (a b : ℚ) :
    XReal.maxV (XReal.fin a) (XReal.fin b) = XReal.fin (Max.max a b) := by
  rw [XReal.maxV, XReal.blt_fin_fin]
  by_cases h : a < b
  · rw [if_pos (by simpa using h), max_eq_right (le_of_lt h)]
  · rw [if_neg (by simpa using h), max_eq_left (le_of_not_lt h)]

theorem XReal.mulQ_fin (q c : ℚ) : XReal.mulQ q (XReal.fin c) = XReal.fin (q * c) := rfl

theorem XReal.blt_asymmetric {a b : XReal} (h : XReal.blt a b = true) :
    XReal.blt b a = false := by
  cases a <;> cases b <;> simp_all [XReal.blt]
  linarith

theorem recipQ_ne (d : ℚ) (hd : d ≠ 0) : recipQ d = XReal.fin d⁻¹ := by
  rw [recipQ, if_neg hd]

/-- Scalar form of the near-corner selection of the sign-table slab test:
with a sign bit matching the direction's sign, the chosen corner gives the
smaller of the two per-axis slab parameters. -/
theorem slab_near_eq (sgn : ℕ) (d o lo hi : ℚ) (hs : sgn = if d < 0 then 1 else 0)
    (hd : d ≠ 0) (hlohi : lo ≤ hi) :
    XReal.mulQ ((if sgn = 0 then lo else hi) - o) (recipQ d) =
      XReal.fin (Min.min ((lo - o) * d⁻¹) ((hi - o) * d⁻¹)) := by
  rw [recipQ_ne d hd]
  rcases lt_or_gt_of_ne hd with hneg | hpos
  · have hinv : d⁻¹ < 0 := inv_lt_zero.mpr hneg
    have hkey : (hi - o) * d⁻¹ ≤ (lo - o) * d⁻¹ :=
      mul_le_mul_of_nonpos_right (by linarith) (le_of_lt hinv)
    rw [hs, if_pos hneg]
    norm_num
    rw [min_eq_right hkey, XReal.mulQ_fin]
  · have hinv : 0 ≤ d⁻¹ := le_of_lt (inv_pos.mpr hpos)
    have hkey : (lo - o) * d⁻¹ ≤ (hi - o) * d⁻¹ :=
      mul_le_mul_of_nonneg_right (by linarith) hinv
    rw [hs, if_neg (not_lt.mpr (le_of_lt hpos))]
    norm_num
    rw [min_eq_left hkey, XReal.mulQ_fin]

/-- Scalar form of the far-corner selection. -/
theorem slab_far_eq (sgn : ℕ) (d o lo hi : ℚ) (hs : sgn = if d < 0 then 1 else 0)
    (hd : d ≠ 0) (hlohi : lo ≤ hi) :
    XReal.mulQ ((if 1 - sgn = 0 then lo else hi) - o) (recipQ d) =
      XReal.fin (Max.max ((lo - o) * d⁻¹) ((hi - o) * d⁻¹)) := by
  rw [recipQ_ne d hd]
  rcases lt_or_gt_of_ne hd with hneg | hpos
  · have hinv : d⁻¹ < 0 := inv_lt_zero.mpr hneg
    have hkey : (hi - o) * d⁻¹ ≤ (lo - o) * d⁻¹ :=
      mul_le_mul_of_nonpos_right (by linarith) (le_of_lt hinv)
    rw [hs, if_pos hneg]
    norm_num
    rw [max_eq_left hkey, XReal.mulQ_fin]
  · have hinv : 0 ≤ d⁻¹ := le_of_lt (inv_pos.mpr hpos)
    have hkey : (lo - o) * d⁻¹ ≤ (hi - o) * d⁻¹ :=
      mul_le_mul_of_nonneg_right (by linarith) hinv
    rw [hs, if_neg (not_lt.mpr (le_of_lt hpos))]
    norm_num
    rw [max_eq_right hkey, XReal.mulQ_fin]

theorem corner_x (b : AABB) (i : ℕ) :
    (AABB.corner b i).x = if i = 0 then b.min.x else b.max.x := by
  rw [AABB.corner, apply_ite Vec3.x]

theorem corner_y (b : AABB) (i : ℕ) :
    (AABB.corner b i).y = if i = 0 then b.min.y else b.max.y := by
  rw [AABB.corner, apply_ite Vec3.y]

theorem corner_z (b : AABB) (i : ℕ) :
    (AABB.corner b i).z = if i = 0 then b.min.z else b.max.z := by
  rw [AABB.corner, apply_ite Vec3.z]

theorem inv_x_eq {r : Ray} (hc : r.Consistent) :
    r.inv_direction.x = recipQ r.direction.x := by rw [hc.1]

theorem inv_y_eq {r : Ray} (hc : r.Consistent) :
    r.inv_direction.y = recipQ r.direction.y := by rw [hc.1]

theorem inv_z_eq {r : Ray} (hc : r.Consistent) :
    r.inv_direction.z = recipQ r.direction.z := by rw [hc.1]

theorem x_min_eq (r : Ray) (b : AABB) (hc : r.Consistent)
    (hd : r.direction.x ≠ 0) (hb : b.min.x ≤ b.max.x) :
    r.x_min b = XReal.fin (r.qnx b) := by
  rw [Ray.x_min, Ray.qnx, corner_x, inv_x_eq hc]
  exact slab_near_eq r.sign_x r.direction.x r.origin.x b.min.x b.max.x hc.2.1 hd hb

theorem x_max_eq (r : Ray) (b : AABB) (hc : r.Consistent)
    (hd : r.direction.x ≠ 0) (hb : b.min.x ≤ b.max.x) :
    r.x_max b = XReal.fin (r.qfx b) := by
  rw [Ray.x_max, Ray.qfx, corner_x, inv_x_eq hc]
  exact slab_far_eq r.sign_x r.direction.x r.origin.x b.min.x b.max.x hc.2.1 hd hb

theorem y_min_eq (r : Ray) (b : AABB) (hc : r.Consistent)
    (hd : r.direction.y ≠ 0) (hb : b.min.y ≤ b.max.y) :
    r.y_min b = XReal.fin (r.qny b) := by
  rw [Ray.y_min, Ray.qny, corner_y, inv_y_eq hc]
  exact slab_near_eq r.sign_y r.direction.y r.origin.y b.min.y b.max.y hc.2.2.1 hd hb

theorem y_max_eq (r : Ray) (b : AABB) (hc : r.Consistent)
    (hd : r.direction.y ≠ 0) (hb : b.min.y ≤ b.max.y) :
    r.y_max b = XReal.fin (r.qfy b) := by
  rw [Ray.y_max, Ray.qfy, corner_y, inv_y_eq hc]
  exact slab_far_eq r.sign_y r.direction.y r.origin.y b.min.y b.max.y hc.2.2.1 hd hb

theorem z_min_eq (r : Ray) (b : AABB) (hc : r.Consistent)
    (hd : r.direction.z ≠ 0) (hb : b.min.z ≤ b.max.z) :
    r.z_min b = XReal.fin (r.qnz b) := by
  rw [Ray.z_min, Ray.qnz, corner_z, inv_z_eq hc]
  exact slab_near_eq r.sign_z r.direction.z r.origin.z b.min.z b.max.z hc.2.2.2 hd hb

theorem z_max_eq (r : Ray) (b : AABB) (hc : r.Consistent)
    (hd : r.direction.z ≠ 0) (hb : b.min.z ≤ b.max.z) :
    r.z_max b = XReal.fin (r.qfz b) := by
  rw [Ray.z_max, Ray.qfz, corner_z, inv_z_eq hc]
  exact slab_far_eq r.sign_z r.direction.z r.origin.z b.min.z b.max.z hc.2.2.2 hd hb

theorem hit_x_entry_eq (r : Ray) (b : AABB) (hc : r.Consistent)
    (hd : r.direction.x ≠ 0) :
    XReal.minV (r.hit_min_x b) (r.hit_max_x b) = XReal.fin (r.qnx b) := by
  rw [Ray.hit_min_x, Ray.hit_max_x, inv_x_eq hc, recipQ_ne _ hd, XReal.mulQ_fin,
    XReal.mulQ_fin, XReal.minV_fin_fin, Ray.qnx]

theorem hit_x_exit_eq (r : Ray) (b : AABB) (hc : r.Consistent)
    (hd : r.direction.x ≠ 0) :
    XReal.maxV (r.hit_min_x b) (r.hit_max_x b) = XReal.fin (r.qfx b) := by
  rw [Ray.hit_min_x, Ray.hit_max_x, inv_x_eq hc, recipQ_ne _ hd, XReal.mulQ_fin,
    XReal.mulQ_fin, XReal.maxV_fin_fin, Ray.qfx]

theorem hit_y_entry_eq (r : Ray) (b : AABB) (hc : r.Consistent)
    (hd : r.direction.y ≠ 0) :
    XReal.minV (r.hit_min_y b) (r.hit_max_y b) = XReal.fin (r.qny b) := by
  rw [Ray.hit_min_y, Ray.hit_max_y, inv_y_eq hc, recipQ_ne _ hd, XReal.mulQ_fin,
    XReal.mulQ_fin, XReal.minV_fin_fin, Ray.qny]

theorem hit_y_exit_eq (r : Ray) (b : AABB) (hc : r.Consistent)
    (hd : r.direction.y ≠ 0) :
    XReal.maxV (r.hit_min_y b) (r.hit_max_y b) = XReal.fin (r.qfy b) := by
  rw [Ray.hit_min_y, Ray.hit_max_y, inv_y_eq hc, recipQ_ne _ hd, XReal.mulQ_fin,
    XReal.mulQ_fin, XReal.maxV_fin_fin, Ray.qfy]

theorem hit_z_entry_eq (r : Ray) (b : AABB) (hc : r.Consistent)
    (hd : r.direction.z ≠ 0) :
    XReal.minV (r.hit_min_z b) (r.hit_max_z b) = XReal.fin (r.qnz b) := by
  rw [Ray.hit_min_z, Ray.hit_max_z, inv_z_eq hc, recipQ_ne _ hd, XReal.mulQ_fin,
    XReal.mulQ_fin, XReal.minV_fin_fin, Ray.qnz]

theorem hit_z_exit_eq (r : Ray) (b : AABB) (hc : r.Consistent)
    (hd : r.direction.z ≠ 0) :
    XReal.maxV (r.hit_min_z b) (r.hit_max_z b) = XReal.fin (r.qfz b) := by
  rw [Ray.hit_min_z, Ray.hit_max_z, inv_z_eq hc, recipQ_ne _ hd, XReal.mulQ_fin,
    XReal.mulQ_fin, XReal.maxV_fin_fin, Ray.qfz]

theorem qnx_le_qfx (r : Ray) (b : AABB) : r.qnx b ≤ r.qfx b := by
  unfold Ray.qnx Ray.qfx; exact min_le_max

theorem qny_le_qfy (r : Ray) (b : AABB) : r.qny b ≤ r.qfy b := by
  unfold Ray.qny Ray.qfy; exact min_le_max

theorem qnz_le_qfz (r : Ray) (b : AABB) : r.qnz b ≤ r.qfz b := by
  unfold Ray.qnz Ray.qfz; exact min_le_max

theorem le_pairs {a1 a2 a3 b1 b2 b3 : ℚ}
    (h : Max.max (Max.max a1 a2) a3 ≤ Min.min (Min.min b1 b2) b3) :
    (a1 ≤ b1 ∧ a1 ≤ b2 ∧ a1 ≤ b3) ∧ (a2 ≤ b1 ∧ a2 ≤ b2 ∧ a2 ≤ b3) ∧
      (a3 ≤ b1 ∧ a3 ≤ b2 ∧ a3 ≤ b3) := by
  simp only [max_le_iff, le_min_iff] at h
  tauto

theorem le_pairs_rev {a1 a2 a3 b1 b2 b3 : ℚ}
    (h : (a1 ≤ b1 ∧ a1 ≤ b2 ∧ a1 ≤ b3) ∧ (a2 ≤ b1 ∧ a2 ≤ b2 ∧ a2 ≤ b3) ∧
      (a3 ≤ b1 ∧ a3 ≤ b2 ∧ a3 ≤ b3)) :
    Max.max (Max.max a1 a2) a3 ≤ Min.min (Min.min b1 b2) b3 := by
  simp only [max_le_iff, le_min_iff]
  tauto

/-- Characterization of the optimized slab test for consistent nondegenerate
rays over well-formed boxes: it accepts exactly when the slab intersection
is nonempty and its upper end is strictly positive. -/
theorem opt_iff (r : Ray) (b : AABB) (hc : r.Consistent) (hd : r.NonDeg) (hb : b.wf) :
    r.intersects_aabb b = true ↔
      (Max.max (Max.max (r.qnx b) (r.qny b)) (r.qnz b) ≤
          Min.min (Min.min (r.qfx b) (r.qfy b)) (r.qfz b) ∧
        0 < Min.min (Min.min (r.qfx b) (r.qfy b)) (r.qfz b)) := by
  obtain ⟨hdx, hdy, hdz⟩ := hd
  obtain ⟨hbx, hby, hbz⟩ := hb
  rw [Ray.intersects_aabb, x_min_eq r b hc hdx hbx, x_max_eq r b hc hdx hbx,
    y_min_eq r b hc hdy hby, y_max_eq r b hc hdy hby,
    z_min_eq r b hc hdz hbz, z_max_eq r b hc hdz hbz]
  simp only [XReal.minV_fin_fin, XReal.maxV_fin_fin, XReal.blt_fin_fin,
    Bool.or_eq_true, decide_eq_true_eq]
  split_ifs with h1 h2
  · rw [false_iff, not_and]
    intro hle
    obtain ⟨⟨p11, p12, p13⟩, ⟨p21, p22, p23⟩, ⟨p31, p32, p33⟩⟩ := le_pairs hle
    rcases h1 with h | h <;> intro hpos <;> linarith
  · rw [false_iff, not_and]
    intro hle
    obtain ⟨⟨p11, p12, p13⟩, ⟨p21, p22, p23⟩, ⟨p31, p32, p33⟩⟩ := le_pairs hle
    rcases h2 with h | h <;> intro hpos
    · have hmx : Max.max (r.qnx b) (r.qny b) ≤ r.qfz b := max_le p13 p23
      linarith
    · have hmn : r.qnz b ≤ Min.min (r.qfx b) (r.qfy b) := le_min p31 p32
      linarith
  · rw [decide_eq_true_eq]
    push_neg at h1 h2
    obtain ⟨h1a, h1b⟩ := h1
    obtain ⟨h2a, h2b⟩ := h2
    constructor
    · intro h0
      have hxz : r.qnx b ≤ r.qfz b := le_trans (le_max_left _ _) h2a
      have hyz : r.qny b ≤ r.qfz b := le_trans (le_max_right _ _) h2a
      have hzx : r.qnz b ≤ r.qfx b := le_trans h2b (min_le_left _ _)
      have hzy : r.qnz b ≤ r.qfy b := le_trans h2b (min_le_right _ _)
      exact ⟨le_pairs_rev ⟨⟨qnx_le_qfx r b, h1a, hxz⟩, ⟨h1b, qny_le_qfy r b, hyz⟩,
        ⟨hzx, hzy, qnz_le_qfz r b⟩⟩, h0⟩
    · intro h
      exact h.2

/-- Characterization of the naive test: both final comparisons are strict. -/
theorem naive_iff (r : Ray) (b : AABB) (hc : r.Consistent) (hd : r.NonDeg) :
    r.intersects_aabb_naive b = true ↔
      (Max.max (Max.max (r.qnx b) (r.qny b)) (r.qnz b) <
          Min.min (Min.min (r.qfx b) (r.qfy b)) (r.qfz b) ∧
        0 < Min.min (Min.min (r.qfx b) (r.qfy b)) (r.qfz b)) := by
  obtain ⟨hdx, hdy, hdz⟩ := hd
  rw [Ray.intersects_aabb_naive]
  simp only [hit_x_entry_eq r b hc hdx, hit_x_exit_eq r b hc hdx,
    hit_y_entry_eq r b hc hdy, hit_y_exit_eq r b hc hdy,
    hit_z_entry_eq r b hc hdz, hit_z_exit_eq r b hc hdz,
    XReal.minV_fin_fin, XReal.maxV_fin_fin, XReal.blt_fin_fin,
    Bool.and_eq_true, decide_eq_true_eq]

/-- Characterization of the branchless test: both final comparisons are
non-strict. -/
theorem branchless_iff (r : Ray) (b : AABB) (hc : r.Consistent) (hd : r.NonDeg) :
    r.intersects_aabb_branchless b = true ↔
      (Max.max (Max.max (r.qnx b) (r.qny b)) (r.qnz b) ≤
          Min.min (Min.min (r.qfx b) (r.qfy b)) (r.qfz b) ∧
        0 ≤ Min.min (Min.min (r.qfx b) (r.qfy b)) (r.qfz b)) := by
  obtain ⟨hdx, hdy, hdz⟩ := hd
  rw [Ray.intersects_aabb_branchless]
  simp only [hit_x_entry_eq r b hc hdx, hit_x_exit_eq r b hc hdx,
    hit_y_entry_eq r b hc hdy, hit_y_exit_eq r b hc hdy,
    hit_z_entry_eq r b hc hdz, hit_z_exit_eq r b hc hdz,
    XReal.minV_fin_fin, XReal.maxV_fin_fin, XReal.ble_fin_fin,
    Bool.and_eq_true, decide_eq_true_eq]

/-- The running slab bounds as tracked by the optimized test, reduced to
rational form. -/
theorem t_near_max_eq (r : Ray) (b : AABB) (hc : r.Consistent) (hd : r.NonDeg)
    (hb : b.wf) :
    r.t_near_max b = XReal.fin (Max.max (Max.max (r.qnx b) (r.qny b)) (r.qnz b)) := by
  rw [Ray.t_near_max, x_min_eq r b hc hd.1 hb.1, y_min_eq r b hc hd.2.1 hb.2.1,
    z_min_eq r b hc hd.2.2 hb.2.2, XReal.maxV_fin_fin, XReal.maxV_fin_fin]

theorem t_far_min_eq (r : Ray) (b : AABB) (hc : r.Consistent) (hd : r.NonDeg)
    (hb : b.wf) :
    r.t_far_min b = XReal.fin (Min.min (Min.min (r.qfx b) (r.qfy b)) (r.qfz b)) := by
  rw [Ray.t_far_min, x_max_eq r b hc hd.1 hb.1, y_max_eq r b hc hd.2.1 hb.2.1,
    z_max_eq r b hc hd.2.2 hb.2.2, XReal.minV_fin_fin, XReal.minV_fin_fin]

theorem XReal.fin_le_fin (a b : ℚ) : (XReal.fin a ≤ XReal.fin b) ↔ a ≤ b := by
  show XReal.ble _ _ = true ↔ _
  rw [XReal.ble_fin_fin, decide_eq_true_eq]

theorem XReal.fin_lt_fin (a b : ℚ) : (XReal.fin a < XReal.fin b) ↔ a < b := by
  show XReal.blt _ _ = true ↔ _
  rw [XReal.blt_fin_fin, decide_eq_true_eq]

/-- C1 (amended): for a ray with consistent caches and no zero direction
component and a well-formed AABB, the three ray/AABB algorithms agree
whenever the slab interval is not degenerate (its ends differ) and its
upper end is not exactly zero.  (On those boundary cases the strictness of
the final comparisons differs between the three algorithms; see the
counterexample.) -/
theorem aabb_algorithms_agree_off_boundary (r : Ray) (b : AABB)
    (hc : r.Consistent) (hd : r.NonDeg) (hb : b.wf)
    (hne : r.t_near_max b ≠ r.t_far_min b) (hnz : r.t_far_min b ≠ XReal.fin 0) :
    r.intersects_aabb b = r.intersects_aabb_naive b ∧
      r.intersects_aabb_naive b = r.intersects_aabb_branchless b := by
  rw [t_near_max_eq r b hc hd hb, t_far_min_eq r b hc hd hb] at hne
  rw [t_far_min_eq r b hc hd hb] at hnz
  simp only [ne_eq, XReal.fin.injEq] at hne hnz
  have ho := opt_iff r b hc hd hb
  have hn := naive_iff r b hc hd
  have hbr := branchless_iff r b hc hd
  constructor
  · apply bool_eq_of_iff
    rw [ho, hn]
    constructor
    · rintro ⟨hle, hpos⟩
      exact ⟨lt_of_le_of_ne hle hne, hpos⟩
    · rintro ⟨hlt, hpos⟩
      exact ⟨le_of_lt hlt, hpos⟩
  · apply bool_eq_of_iff
    rw [hn, hbr]
    constructor
    · rintro ⟨hlt, hpos⟩
      exact ⟨le_of_lt hlt, le_of_lt hpos⟩
    · rintro ⟨hle, hge⟩
      exact ⟨lt_of_le_of_ne hle hne, lt_of_le_of_ne hge (Ne.symm hnz)⟩

/-- C1 counterexample, with every value exactly representable in f64: the
ray from the origin along +y against the box [-1,1]x[-2,0]x[-1,1], whose
slab interval is [-2,0].  The optimized test requires ray_max > 0 and
rejects; the branchless test requires tmax >= 0 and accepts; so the three
algorithms do not agree on this (ray, aabb) pair. -/
theorem aabb_algorithms_disagree_at_boundary :
    ¬((mkRayU ⟨0, 0, 0⟩ ⟨0, 1, 0⟩).intersects_aabb ⟨⟨-1, -2, -1⟩, ⟨1, 0, 1⟩⟩ =
        (mkRayU ⟨0, 0, 0⟩ ⟨0, 1, 0⟩).intersects_aabb_naive ⟨⟨-1, -2, -1⟩, ⟨1, 0, 1⟩⟩ ∧
      (mkRayU ⟨0, 0, 0⟩ ⟨0, 1, 0⟩).intersects_aabb_naive ⟨⟨-1, -2, -1⟩, ⟨1, 0, 1⟩⟩ =
        (mkRayU ⟨0, 0, 0⟩ ⟨0, 1, 0⟩).intersects_aabb_branchless ⟨⟨-1, -2, -1⟩, ⟨1, 0, 1⟩⟩) := by
  decide

/-- C1 witness: the amended agreement theorem applied at a concrete
nondegenerate ray and box away from the boundary cases. -/
theorem aabb_algorithms_agree_off_boundary_witness :
    (mkRayU ⟨0, 0, 0⟩ ⟨1/3, 2/3, 2/3⟩).Consistent ∧
    (mkRayU ⟨0, 0, 0⟩ ⟨1/3, 2/3, 2/3⟩).NonDeg ∧
    AABB.wf ⟨⟨1, 10, 20⟩, ⟨2, 20, 40⟩⟩ ∧
    (mkRayU ⟨0, 0, 0⟩ ⟨1/3, 2/3, 2/3⟩).t_near_max ⟨⟨1, 10, 20⟩, ⟨2, 20, 40⟩⟩ ≠
      (mkRayU ⟨0, 0, 0⟩ ⟨1/3, 2/3, 2/3⟩).t_far_min ⟨⟨1, 10, 20⟩, ⟨2, 20, 40⟩⟩ ∧
    (mkRayU ⟨0, 0, 0⟩ ⟨1/3, 2/3, 2/3⟩).t_far_min ⟨⟨1, 10, 20⟩, ⟨2, 20, 40⟩⟩ ≠ XReal.fin 0 ∧
    ((mkRayU ⟨0, 0, 0⟩ ⟨1/3, 2/3, 2/3⟩).intersects_aabb ⟨⟨1, 10, 20⟩, ⟨2, 20, 40⟩⟩ =
        (mkRayU ⟨0, 0, 0⟩ ⟨1/3, 2/3, 2/3⟩).intersects_aabb_naive ⟨⟨1, 10, 20⟩, ⟨2, 20, 40⟩⟩ ∧
      (mkRayU ⟨0, 0, 0⟩ ⟨1/3, 2/3, 2/3⟩).intersects_aabb_naive ⟨⟨1, 10, 20⟩, ⟨2, 20, 40⟩⟩ =
        (mkRayU ⟨0, 0, 0⟩ ⟨1/3, 2/3, 2/3⟩).intersects_aabb_branchless
          ⟨⟨1, 10, 20⟩, ⟨2, 20, 40⟩⟩) :=
⟨by decide, by decide, by decide, by decide, by decide,
  aabb_algorithms_agree_off_boundary _ _ (by decide) (by decide) (by decide)
    (by decide) (by decide)⟩

/-- C3: for a ray with consistent caches and no zero direction component
and a well-formed AABB, the optimized intersects_aabb accepts exactly when
the running slab intersection [max t_near, min t_far] is nonempty and the
final t_far is strictly positive. -/
theorem slab_test_characterization (r : Ray) (b : AABB)
    (hc : r.Consistent) (hd : r.NonDeg) (hb : b.wf) :
    r.intersects_aabb b = true ↔
      (r.t_near_max b ≤ r.t_far_min b ∧ XReal.fin 0 < r.t_far_min b) := by
  rw [opt_iff r b hc hd hb, t_near_max_eq r b hc hd hb, t_far_min_eq r b hc hd hb,
    XReal.fin_le_fin, XReal.fin_lt_fin]

/-- C3 witness: the characterization applied at a concrete ray and box. -/
theorem slab_test_characterization_witness :
    (mkRayU ⟨0, 0, 0⟩ ⟨1/3, 2/3, 2/3⟩).Consistent ∧
    (mkRayU ⟨0, 0, 0⟩ ⟨1/3, 2/3, 2/3⟩).NonDeg ∧
    AABB.wf ⟨⟨1, 1, 1⟩, ⟨9, 9, 9⟩⟩ ∧
    ((mkRayU ⟨0, 0, 0⟩ ⟨1/3, 2/3, 2/3⟩).intersects_aabb ⟨⟨1, 1, 1⟩, ⟨9, 9, 9⟩⟩ = true ↔
      ((mkRayU ⟨0, 0, 0⟩ ⟨1/3, 2/3, 2/3⟩).t_near_max ⟨⟨1, 1, 1⟩, ⟨9, 9, 9⟩⟩ ≤
          (mkRayU ⟨0, 0, 0⟩ ⟨1/3, 2/3, 2/3⟩).t_far_min ⟨⟨1, 1, 1⟩, ⟨9, 9, 9⟩⟩ ∧
        XReal.fin 0 < (mkRayU ⟨0, 0, 0⟩ ⟨1/3, 2/3, 2/3⟩).t_far_min ⟨⟨1, 1, 1⟩, ⟨9, 9, 9⟩⟩)) :=
⟨by decide, by decide, by decide,
  slab_test_characterization _ _ (by decide) (by decide) (by decide)⟩

/-- C7: scenario S1 of the spec: the ray from the origin along +x hits the
box [99.9, 100.1] x [-1, 1] x [-1, 1] (the y and z inverse directions are
+infinity and the slab test still accepts). -/
theorem s1_axis_aligned_hit :
    (mkRayU ⟨0, 0, 0⟩ ⟨1, 0, 0⟩).intersects_aabb
      ⟨⟨999/10, -1, -1⟩, ⟨1001/10, 1, 1⟩⟩ = true := by decide

/-- C10: whenever the optimized boolean slab test accepts, the distance
variant returns Some: the two share every rejection test, and the final
checks (ray_max > 0 versus ray_max < 0) cannot both hold. -/
theorem dist_some_of_hit (r : Ray) (b : AABB) (h : r.intersects_aabb b = true) :
    (r.intersects_aabb_dist b).isSome = true := by
  rw [Ray.intersects_aabb] at h
  rw [Ray.intersects_aabb_dist]
  split_ifs at h ⊢ with h1 h2 h3
  · rw [XReal.blt_asymmetric h] at h3
    exact Bool.noConfusion h3
  · rfl

/-- C10 witness: a concrete accepted pair on which the distance variant is
Some. -/
theorem dist_some_of_hit_witness :
    (mkRayU ⟨0, 0, 0⟩ ⟨1/3, 2/3, 2/3⟩).intersects_aabb ⟨⟨1, 1, 1⟩, ⟨9, 9, 9⟩⟩ = true ∧
    ((mkRayU ⟨0, 0, 0⟩ ⟨1/3, 2/3, 2/3⟩).intersects_aabb_dist
        ⟨⟨1, 1, 1⟩, ⟨9, 9, 9⟩⟩).isSome = true :=
⟨by decide, dist_some_of_hit _ _ (by decide)⟩

theorem tri_miss_of_det_lt (r : Ray) (a b c : Vec3) (h : r.tri_det a b c < EPSILON) :
    (r.intersects_triangle a b c).distance = XReal.posInf := by
  rw [Ray.intersects_triangle, if_pos h]

/-- A degenerate triangle (one edge a rational multiple of the other) has a
zero Moeller-Trumbore determinant: the scalar triple product vanishes. -/
theorem tri_det_degenerate (r : Ray) (a b c : Vec3) (t : ℚ)
    (ht : Vec3.sub b a = Vec3.smul t (Vec3.sub c a)) : r.tri_det a b c = 0 := by
  rw [Ray.tri_det, ht]
  simp only [Vec3.sub, Vec3.smul, Vec3.dot, Vec3.cross]
  ring

/-- C4: intersects_triangle returns distance +infinity whenever the
determinant is below EPSILON (hence on every degenerate triangle and every
backface), and more generally the returned distance is finite exactly when
the determinant is at least EPSILON, the barycentric parameters lie inside
the triangle, and the candidate distance exceeds EPSILON (a front-face hit
inside the triangle). -/
theorem tri_infinity_characterization (r : Ray) (a b c : Vec3) :
    (r.tri_det a b c < EPSILON → (r.intersects_triangle a b c).distance = XReal.posInf) ∧
    ((∃ t : ℚ, Vec3.sub b a = Vec3.smul t (Vec3.sub c a)) →
      (r.intersects_triangle a b c).distance = XReal.posInf) ∧
    ((r.intersects_triangle a b c).distance ≠ XReal.posInf ↔
      (EPSILON ≤ r.tri_det a b c ∧ 0 ≤ r.tri_u a b c ∧ r.tri_u a b c ≤ 1 ∧
        0 ≤ r.tri_v a b c ∧ r.tri_u a b c + r.tri_v a b c ≤ 1 ∧
        EPSILON < r.tri_dist a b c)) := by
  refine ⟨tri_miss_of_det_lt r a b c, ?_, ?_⟩
  · rintro ⟨t, ht⟩
    apply tri_miss_of_det_lt
    rw [tri_det_degenerate r a b c t ht]
    norm_num [EPSILON]
  · rw [Ray.intersects_triangle]
    split_ifs with h1 h2 h3 h4
    · refine iff_of_false (fun hne => hne rfl) ?_
      rintro ⟨hd, -⟩
      linarith
    · refine iff_of_false (fun hne => hne rfl) ?_
      rintro ⟨-, -, -, hv0, huv, -⟩
      rcases h3 with h | h <;> linarith
    · refine iff_of_true ?_ ?_
      · intro heq
        exact XReal.noConfusion heq
      · push_neg at h3
        exact ⟨le_of_not_lt h1, h2.1, h2.2, h3.1, h3.2, h4⟩
    · refine iff_of_false (fun hne => hne rfl) ?_
      rintro ⟨-, -, -, -, -, hdist⟩
      exact h4 hdist
    · refine iff_of_false (fun hne => hne rfl) ?_
      rintro ⟨-, hu0, hu1, -⟩
      exact h2 ⟨hu0, hu1⟩

/-- C9: intersects_triangle never reports a back face: every return site of
the source constructs its Intersection with back_face false. -/
theorem tri_never_back_face (r : Ray) (a b c : Vec3) :
    (r.intersects_triangle a b c).back_face = false := by
  rw [Ray.intersects_triangle]
  split_ifs <;> rfl

theorem containedIn_refl (a : AABB) : a.containedIn a := by
  unfold AABB.containedIn
  exact ⟨le_refl _, le_refl _, le_refl _, le_refl _, le_refl _, le_refl _⟩

theorem containedIn_trans {a b c : AABB} (h1 : a.containedIn b) (h2 : b.containedIn c) :
    a.containedIn c := by
  obtain ⟨p1, p2, p3, p4, p5, p6⟩ := h1
  obtain ⟨q1, q2, q3, q4, q5, q6⟩ := h2
  exact ⟨le_trans q1 p1, le_trans q2 p2, le_trans q3 p3,
    le_trans p4 q4, le_trans p5 q5, le_trans p6 q6⟩

theorem containedIn_join_left (a b : AABB) : a.containedIn (AABB.join a b) := by
  unfold AABB.containedIn AABB.join
  exact ⟨min_le_left _ _, min_le_left _ _, min_le_left _ _,
    le_max_left _ _, le_max_left _ _, le_max_left _ _⟩

theorem containedIn_join_right (a b : AABB) : b.containedIn (AABB.join a b) := by
  unfold AABB.containedIn AABB.join
  exact ⟨min_le_right _ _, min_le_right _ _, min_le_right _ _,
    le_max_right _ _, le_max_right _ _, le_max_right _ _⟩

theorem join_wf {a b : AABB} (ha : a.wf) (hb : b.wf) : (AABB.join a b).wf := by
  obtain ⟨a1, a2, a3⟩ := ha
  obtain ⟨b1, b2, b3⟩ := hb
  unfold AABB.wf AABB.join
  refine ⟨?_, ?_, ?_⟩
  · exact le_trans (min_le_left _ _) (le_trans a1 (le_max_left _ _))
  · exact le_trans (min_le_left _ _) (le_trans a2 (le_max_left _ _))
  · exact le_trans (min_le_left _ _) (le_trans a3 (le_max_left _ _))

/-- Monotonicity in the scalar slab parameters: the near parameter over a
larger box is no larger. -/
theorem qmin_mono (d o lo1 hi1 lo2 hi2 : ℚ) (h1 : lo2 ≤ lo1) (h2 : hi1 ≤ hi2)
    (hio : lo1 ≤ hi1) :
    Min.min ((lo2 - o) * d) ((hi2 - o) * d) ≤ Min.min ((lo1 - o) * d) ((hi1 - o) * d) := by
  rcases le_or_lt 0 d with hd | hd
  · have k1 : (lo2 - o) * d ≤ (lo1 - o) * d :=
      mul_le_mul_of_nonneg_right (by linarith) hd
    have k2 : (lo1 - o) * d ≤ (hi1 - o) * d :=
      mul_le_mul_of_nonneg_right (by linarith) hd
    exact le_min (le_trans (min_le_left _ _) k1) (le_trans (min_le_left _ _) (le_trans k1 k2))
  · have k1 : (hi2 - o) * d ≤ (hi1 - o) * d :=
      mul_le_mul_of_nonpos_right (by linarith) (le_of_lt hd)
    have k2 : (hi1 - o) * d ≤ (lo1 - o) * d :=
      mul_le_mul_of_nonpos_right (by linarith) (le_of_lt hd)
    exact le_min (le_trans (min_le_right _ _) (le_trans k1 k2))
      (le_trans (min_le_right _ _) k1)

/-- Monotonicity in the scalar slab parameters: the far parameter over a
larger box is no smaller. -/
theorem qmax_mono (d o lo1 hi1 lo2 hi2 : ℚ) (h1 : lo2 ≤ lo1) (h2 : hi1 ≤ hi2)
    (hio : lo1 ≤ hi1) :
    Max.max ((lo1 - o) * d) ((hi1 - o) * d) ≤ Max.max ((lo2 - o) * d) ((hi2 - o) * d) := by
  rcases le_or_lt 0 d with hd | hd
  · have k1 : (hi1 - o) * d ≤ (hi2 - o) * d :=
      mul_le_mul_of_nonneg_right (by linarith) hd
    have k2 : (lo1 - o) * d ≤ (hi1 - o) * d :=
      mul_le_mul_of_nonneg_right (by linarith) hd
    exact max_le (le_trans (le_trans k2 k1) (le_max_right _ _))
      (le_trans k1 (le_max_right _ _))
  · have k1 : (lo1 - o) * d ≤ (lo2 - o) * d :=
      mul_le_mul_of_nonpos_right (by linarith) (le_of_lt hd)
    have k2 : (hi1 - o) * d ≤ (lo1 - o) * d :=
      mul_le_mul_of_nonpos_right (by linarith) (le_of_lt hd)
    exact max_le (le_trans k1 (le_max_left _ _))
      (le_trans (le_trans k2 k1) (le_max_left _ _))

/-- The optimized slab test is monotone under box containment (for
consistent nondegenerate rays over well-formed boxes): a box containing an
accepted box is accepted. -/
theorem intersects_aabb_mono (r : Ray) (b1 b2 : AABB) (hc : r.Consistent)
    (hd : r.NonDeg) (hb1 : b1.wf) (hb2 : b2.wf) (hcont : b1.containedIn b2)
    (h : r.intersects_aabb b1 = true) : r.intersects_aabb b2 = true := by
  rw [opt_iff r b1 hc hd hb1] at h
  rw [opt_iff r b2 hc hd hb2]
  obtain ⟨c1, c2, c3, c4, c5, c6⟩ := hcont
  obtain ⟨w1, w2, w3⟩ := hb1
  have mnx : r.qnx b2 ≤ r.qnx b1 := by
    unfold Ray.qnx
    exact qmin_mono _ _ _ _ _ _ c1 c4 w1
  have mny : r.qny b2 ≤ r.qny b1 := by
    unfold Ray.qny
    exact qmin_mono _ _ _ _ _ _ c2 c5 w2
  have mnz : r.qnz b2 ≤ r.qnz b1 := by
    unfold Ray.qnz
    exact qmin_mono _ _ _ _ _ _ c3 c6 w3
  have mfx : r.qfx b1 ≤ r.qfx b2 := by
    unfold Ray.qfx
    exact qmax_mono _ _ _ _ _ _ c1 c4 w1
  have mfy : r.qfy b1 ≤ r.qfy b2 := by
    unfold Ray.qfy
    exact qmax_mono _ _ _ _ _ _ c2 c5 w2
  have mfz : r.qfz b1 ≤ r.qfz b2 := by
    unfold Ray.qfz
    exact qmax_mono _ _ _ _ _ _ c3 c6 w3
  obtain ⟨hle, hpos⟩ := h
  obtain ⟨⟨p11, p12, p13⟩, ⟨p21, p22, p23⟩, ⟨p31, p32, p33⟩⟩ := le_pairs hle
  simp only [lt_min_iff] at hpos
  obtain ⟨⟨f1, f2⟩, f3⟩ := hpos
  constructor
  · exact le_pairs_rev ⟨⟨by linarith, by linarith, by linarith⟩,
      ⟨by linarith, by linarith, by linarith⟩, ⟨by linarith, by linarith, by linarith⟩⟩
  · simp only [lt_min_iff]
    exact ⟨⟨by linarith, by linarith⟩, by linarith⟩

theorem bound_wf (sh : ℕ → AABB) (t : BVHTree)
    (hw : ∀ i ∈ t.shapes, (sh i).wf) : (t.bound sh).wf := by
  induction t with
  | leaf s =>
      exact hw s (by simp [BVHTree.shapes])
  | node aL l aR r ihl ihr =>
      rw [BVHTree.bound]
      refine join_wf (ihl ?_) (ihr ?_)
      · intro i hi
        exact hw i (by simp [BVHTree.shapes, hi])
      · intro i hi
        exact hw i (by simp [BVHTree.shapes, hi])

theorem shape_contained (sh : ℕ → AABB) (t : BVHTree) (i : ℕ)
    (hi : i ∈ t.shapes) : (sh i).containedIn (t.bound sh) := by
  induction t with
  | leaf s =>
      simp only [BVHTree.shapes, List.mem_singleton] at hi
      subst hi
      rw [BVHTree.bound]
      exact containedIn_refl _
  | node aL l aR r ihl ihr =>
      rw [BVHTree.bound]
      rw [BVHTree.shapes, List.mem_append] at hi
      rcases hi with hi | hi
      · exact containedIn_trans (ihl hi) (containedIn_join_left _ _)
      · exact containedIn_trans (ihr hi) (containedIn_join_right _ _)

/-- Soundness of the recursive collection: an emitted index is a shape of
the tree, and if the query passes the subtree's bound then it passes that
shape's own AABB (for a leaf the two coincide). -/
theorem collect_sound (ray : Ray) (sh : ℕ → AABB) (t : BVHTree)
    (hinv : BVHTree.Inv sh t) (i : ℕ) (hi : i ∈ BVHTree.collect ray sh t) :
    i ∈ t.shapes ∧
      ((∃ s, t = BVHTree.leaf s) ∨ ray.intersects_aabb (sh i) = true) := by
  induction t with
  | leaf s =>
      simp only [BVHTree.collect, List.mem_singleton] at hi
      refine ⟨by simp [BVHTree.shapes, hi], Or.inl ⟨s, rfl⟩⟩
  | node aL l aR r ihl ihr =>
      obtain ⟨haL, haR, hl, hr⟩ := hinv
      rw [BVHTree.collect] at hi
      rw [List.mem_append] at hi
      rcases hi with hi | hi
      · by_cases hL : ray.intersects_aabb aL = true
        · rw [if_pos hL] at hi
          obtain ⟨hmem, hres⟩ := ihl hl hi
          refine ⟨by simp [BVHTree.shapes, hmem], Or.inr ?_⟩
          rcases hres with ⟨s, hs⟩ | hres
          · subst hs
            simp only [BVHTree.shapes, List.mem_singleton] at hmem
            subst hmem
            rw [haL, BVHTree.bound] at hL
            exact hL
          · exact hres
        · rw [if_neg hL] at hi
          exact absurd hi (List.not_mem_nil _)
      · by_cases hR : ray.intersects_aabb aR = true
        · rw [if_pos hR] at hi
          obtain ⟨hmem, hres⟩ := ihr hr hi
          refine ⟨by simp [BVHTree.shapes, hmem], Or.inr ?_⟩
          rcases hres with ⟨s, hs⟩ | hres
          · subst hs
            simp only [BVHTree.shapes, List.mem_singleton] at hmem
            subst hmem
            rw [haR, BVHTree.bound] at hR
            exact hR
          · exact hres
        · rw [if_neg hR] at hi
          exact absurd hi (List.not_mem_nil _)

/-- Completeness of the recursive collection: a shape of the tree whose own
AABB passes the query is emitted (the stored child bounds contain every
shape below them, and the slab test is monotone under containment). -/
theorem collect_complete (ray : Ray) (sh : ℕ → AABB) (t : BVHTree)
    (hc : ray.Consistent) (hd : ray.NonDeg)
    (hw : ∀ j ∈ t.shapes, (sh j).wf) (hinv : BVHTree.Inv sh t) (i : ℕ)
    (hi : i ∈ t.shapes) (htest : ray.intersects_aabb (sh i) = true) :
    i ∈ BVHTree.collect ray sh t := by
  induction t with
  | leaf s =>
      simp only [BVHTree.shapes, List.mem_singleton] at hi
      subst hi
      simp [BVHTree.collect]
  | node aL l aR r ihl ihr =>
      obtain ⟨haL, haR, hl, hr⟩ := hinv
      have hwl : ∀ j ∈ l.shapes, (sh j).wf := by
        intro j hj
        exact hw j (by simp [BVHTree.shapes, hj])
      have hwr : ∀ j ∈ r.shapes, (sh j).wf := by
        intro j hj
        exact hw j (by simp [BVHTree.shapes, hj])
      rw [BVHTree.collect, List.mem_append]
      rw [BVHTree.shapes, List.mem_append] at hi
      rcases hi with hi | hi
      · left
        have hL : ray.intersects_aabb aL = true := by
          rw [haL]
          exact intersects_aabb_mono ray (sh i) (l.bound sh) hc hd
            (hwl i hi) (bound_wf sh l hwl) (shape_contained sh l i hi) htest
        rw [if_pos hL]
        exact ihl hwl hl hi
      · right
        have hR : ray.intersects_aabb aR = true := by
          rw [haR]
          exact intersects_aabb_mono ray (sh i) (r.bound sh) hc hd
            (hwr i hi) (bound_wf sh r hwr) (shape_contained sh r i hi) htest
        rw [if_pos hR]
        exact ihr hwr hr hi

/-- C2: traversal completeness: over a built tree (stored child AABBs are
exactly the unions of the shapes below them), traversal with a consistent
nondegenerate ray yields, as a set, exactly the shapes of the tree whose own
AABBs pass the ray's slab test. -/
theorem traverse_eq_brute (ray : Ray) (sh : ℕ → AABB) (t : BVHTree)
    (hc : ray.Consistent) (hd : ray.NonDeg)
    (hw : ∀ j ∈ t.shapes, (sh j).wf) (hinv : BVHTree.Inv sh t) :
    ∀ i, i ∈ BVHTree.traverse ray sh t ↔
      (i ∈ t.shapes ∧ ray.intersects_aabb (sh i) = true) := by
  intro i
  cases t with
  | leaf s =>
      rw [BVHTree.traverse]
      by_cases hts : ray.intersects_aabb (sh s) = true
      · rw [if_pos hts]
        simp only [BVHTree.shapes, List.mem_singleton]
        constructor
        · intro hi
          subst hi
          exact ⟨rfl, hts⟩
        · rintro ⟨hi, -⟩
          exact hi
      · rw [if_neg hts]
        simp only [BVHTree.shapes, List.mem_singleton]
        constructor
        · intro hi
          exact absurd hi (List.not_mem_nil _)
        · rintro ⟨hi, ht⟩
          subst hi
          exact absurd ht hts
  | node aL l aR r =>
      rw [BVHTree.traverse]
      constructor
      · intro hi
        obtain ⟨hmem, hres⟩ := collect_sound ray sh _ hinv i hi
        refine ⟨hmem, ?_⟩
        rcases hres with ⟨s, hs⟩ | hres
        · exact BVHTree.noConfusion hs
        · exact hres
      · rintro ⟨hmem, htest⟩
        exact collect_complete ray sh _ hc hd hw hinv i hmem htest

/-- C2 witness: the traversal theorem applied to a concrete two-shape scene. -/
theorem traverse_eq_brute_witness :
    sampleRay.Consistent ∧ sampleRay.NonDeg ∧
    (∀ j ∈ sampleTree.shapes, (sampleShapes j).wf) ∧
    BVHTree.Inv sampleShapes sampleTree ∧
    (∀ i, i ∈ BVHTree.traverse sampleRay sampleShapes sampleTree ↔
      (i ∈ sampleTree.shapes ∧
        sampleRay.intersects_aabb (sampleShapes i) = true)) :=
⟨by decide, by decide, by decide, by decide,
  traverse_eq_brute sampleRay sampleShapes sampleTree (by decide) (by decide)
    (by decide) (by decide)⟩

theorem queryLoop_fst (maxRes : ℕ) (ms : List ℕ) :
    ∀ (i : ℕ) (buf : ℕ → ℕ), (queryLoop maxRes ms i buf).1 = i + ms.length := by
  induction ms with
  | nil =>
      intro i buf
      simp [queryLoop]
  | cons x xs ih =>
      intro i buf
      rw [queryLoop, ih]
      simp only [List.length_cons]
      omega

theorem queryLoop_snd_high (maxRes : ℕ) (ms : List ℕ) :
    ∀ (i : ℕ) (buf : ℕ → ℕ) (j : ℕ), maxRes ≤ j →
      (queryLoop maxRes ms i buf).2 j = buf j := by
  induction ms with
  | nil =>
      intro i buf j _
      simp [queryLoop]
  | cons x xs ih =>
      intro i buf j hj
      rw [queryLoop, ih _ _ j hj]
      by_cases hi : i < maxRes
      · rw [if_pos hi, bufWrite, if_neg (by omega)]
      · rw [if_neg hi]

theorem queryLoop_snd_low (maxRes : ℕ) (ms : List ℕ) :
    ∀ (i : ℕ) (buf : ℕ → ℕ) (j : ℕ), j < i →
      (queryLoop maxRes ms i buf).2 j = buf j := by
  induction ms with
  | nil =>
      intro i buf j _
      simp [queryLoop]
  | cons x xs ih =>
      intro i buf j hj
      rw [queryLoop, ih _ _ j (by omega)]
      by_cases hi : i < maxRes
      · rw [if_pos hi, bufWrite, if_neg (by omega)]
      · rw [if_neg hi]

theorem queryLoop_snd_mid (maxRes : ℕ) (ms : List ℕ) :
    ∀ (i : ℕ) (buf : ℕ → ℕ) (j : ℕ), i ≤ j → j < maxRes → j - i < ms.length →
      (queryLoop maxRes ms i buf).2 j = ms.getD (j - i) 0 := by
  induction ms with
  | nil =>
      intro i buf j _ _ h3
      simp at h3
  | cons x xs ih =>
      intro i buf j h1 h2 h3
      rw [queryLoop]
      by_cases hji : j = i
      · subst hji
        rw [if_pos (by omega), queryLoop_snd_low maxRes xs _ _ j (by omega),
          bufWrite, if_pos rfl]
        simp
      · have hlt : i < j := lt_of_le_of_ne h1 (fun h => hji h.symm)
        rw [ih (i + 1) _ j (by omega) h2 (by simp at h3; omega)]
        have hsub : j - i = (j - (i + 1)) + 1 := by omega
        rw [hsub, List.getD_cons_succ]

/-- C5: the shared FFI query output loop: when the number of matches
exceeds the output capacity, the returned value is still the total number
of matches; exactly the first min(total, capacity) = capacity slots of the
buffer are written (with the first matches), the rest are untouched. -/
theorem query_overflow_behavior (ms : List ℕ) (maxRes : ℕ) (buf : ℕ → ℕ)
    (h : maxRes < ms.length) :
    (runQuery ms maxRes buf).1 = ms.length ∧
    (∀ j, maxRes ≤ j → (runQuery ms maxRes buf).2 j = buf j) ∧
    (∀ j, j < maxRes → (runQuery ms maxRes buf).2 j = ms.getD j 0) := by
  refine ⟨?_, ?_, ?_⟩
  · rw [runQuery, queryLoop_fst]
    omega
  · intro j hj
    rw [runQuery, queryLoop_snd_high maxRes ms 0 buf j hj]
  · intro j hj
    have := queryLoop_snd_mid maxRes ms 0 buf j (by omega) hj (by omega)
    simpa using this

/-- C5 witness: three matches into a buffer of capacity two. -/
theorem query_overflow_behavior_witness :
    2 < ([7, 8, 9] : List ℕ).length ∧
    ((runQuery [7, 8, 9] 2 (fun _ => 0)).1 = ([7, 8, 9] : List ℕ).length ∧
      (∀ j, 2 ≤ j → (runQuery [7, 8, 9] 2 (fun _ => 0)).2 j = (fun _ => 0 : ℕ → ℕ) j) ∧
      (∀ j, j < 2 → (runQuery [7, 8, 9] 2 (fun _ => 0)).2 j =
        ([7, 8, 9] : List ℕ).getD j 0)) :=
⟨by decide, query_overflow_behavior [7, 8, 9] 2 (fun _ => 0) (by decide)⟩

/-- C8 counterexample: at index 2^31 the usize-to-i32 cast wraps to
-2^31 and casting back sign-extends to 2^64 - 2^31, so the node-index
accessors do not round-trip for every index. -/
theorem node_index_no_roundtrip_at_pow31 :
    (BVHBounds.bh_node_index
      (BVHBounds.set_bh_node_index ⟨⟨0, 0, 0⟩, ⟨0, 0, 0⟩, 0, 0⟩ (2 ^ 31))) ≠ 2 ^ 31 := by
  decide

/-- C8 (amended): for every index below 2^31 (the nonnegative i32 range),
set_bh_node_index followed by bh_node_index returns the index unchanged,
and set_bh_node_index changes no field but the stored index. -/
theorem node_index_roundtrip (b : BVHBounds) (i : ℕ) (h : i < 2 ^ 31) :
    (b.set_bh_node_index i).bh_node_index = i ∧
    (b.set_bh_node_index i).center = b.center ∧
    (b.set_bh_node_index i).extents = b.extents ∧
    (b.set_bh_node_index i).ptr = b.ptr := by
  refine ⟨?_, rfl, rfl, rfl⟩
  rw [BVHBounds.set_bh_node_index, BVHBounds.bh_node_index]
  simp only [usizeToI32, i32ToUsize]
  have hm : i % 2 ^ 32 = i := Nat.mod_eq_of_lt (by omega)
  rw [hm, if_pos (by exact_mod_cast h)]
  omega

/-- C8 witness: the round trip at index 5. -/
theorem node_index_roundtrip_witness :
    (5 : ℕ) < 2 ^ 31 ∧
    ((BVHBounds.set_bh_node_index ⟨⟨0, 0, 0⟩, ⟨0, 0, 0⟩, 0, 0⟩ 5).bh_node_index = 5 ∧
      (BVHBounds.set_bh_node_index ⟨⟨0, 0, 0⟩, ⟨0, 0, 0⟩, 0, 0⟩ 5).center = (⟨0, 0, 0⟩ : Vec3) ∧
      (BVHBounds.set_bh_node_index ⟨⟨0, 0, 0⟩, ⟨0, 0, 0⟩, 0, 0⟩ 5).extents = (⟨0, 0, 0⟩ : Vec3) ∧
      (BVHBounds.set_bh_node_index ⟨⟨0, 0, 0⟩, ⟨0, 0, 0⟩, 0, 0⟩ 5).ptr = 0) :=
⟨by decide, node_index_roundtrip ⟨⟨0, 0, 0⟩, ⟨0, 0, 0⟩, 0, 0⟩ 5 (by decide)⟩

/-- C6: Ray::new stores the normalized direction, caches the componentwise
reciprocal of that normalized direction, and sets each sign bit to 1 exactly
when the corresponding component of the given direction is negative (0
otherwise): normalization divides by the positive length and preserves every
component's sign. -/
theorem ray_new_caches (o d : RVec3) (h : d.x ≠ 0 ∨ d.y ≠ 0 ∨ d.z ≠ 0) :
    (RRay.new o d).origin = o ∧
    (RRay.new o d).direction = RVec3.normalize d ∧
    (RRay.new o d).inv_direction =
      ⟨1 / (RVec3.normalize d).x, 1 / (RVec3.normalize d).y, 1 / (RVec3.normalize d).z⟩ ∧
    (RRay.new o d).sign_x = (if d.x < 0 then 1 else 0) ∧
    (RRay.new o d).sign_y = (if d.y < 0 then 1 else 0) ∧
    (RRay.new o d).sign_z = (if d.z < 0 then 1 else 0) := by
  have hdot : 0 < RVec3.dot d d := by
    rw [RVec3.dot]
    rcases h with h | h | h
    · nlinarith [mul_self_pos.mpr h, mul_self_nonneg d.y, mul_self_nonneg d.z]
    · nlinarith [mul_self_pos.mpr h, mul_self_nonneg d.x, mul_self_nonneg d.z]
    · nlinarith [mul_self_pos.mpr h, mul_self_nonneg d.x, mul_self_nonneg d.y]
  have hlen : 0 < RVec3.length d := by
    rw [RVec3.length]
    exact Real.sqrt_pos.mpr hdot
  have hinv : 0 < 1 / RVec3.length d := by positivity
  have hsign : ∀ a : ℝ, (a * (1 / RVec3.length d) < 0 ↔ a < 0) := by
    intro a
    constructor
    · intro ha
      by_contra hge
      push_neg at hge
      nlinarith
    · intro ha
      exact mul_neg_of_neg_of_pos ha hinv
  refine ⟨rfl, rfl, rfl, ?_, ?_, ?_⟩
  · show (if (RVec3.normalize d).x < 0 then 1 else 0) = (if d.x < 0 then 1 else 0)
    exact if_congr (hsign d.x) rfl rfl
  · show (if (RVec3.normalize d).y < 0 then 1 else 0) = (if d.y < 0 then 1 else 0)
    exact if_congr (hsign d.y) rfl rfl
  · show (if (RVec3.normalize d).z < 0 then 1 else 0) = (if d.z < 0 then 1 else 0)
    exact if_congr (hsign d.z) rfl rfl

/-- C6 witness: the constructor theorem at origin 0 and direction
(3, -4, 0). -/
theorem ray_new_caches_witness :
    ((⟨3, -4, 0⟩ : RVec3).x ≠ 0 ∨ (⟨3, -4, 0⟩ : RVec3).y ≠ 0 ∨
      (⟨3, -4, 0⟩ : RVec3).z ≠ 0) ∧
    ((RRay.new ⟨0, 0, 0⟩ ⟨3, -4, 0⟩).origin = (⟨0, 0, 0⟩ : RVec3) ∧
      (RRay.new ⟨0, 0, 0⟩ ⟨3, -4, 0⟩).direction = RVec3.normalize ⟨3, -4, 0⟩ ∧
      (RRay.new ⟨0, 0, 0⟩ ⟨3, -4, 0⟩).inv_direction =
        ⟨1 / (RVec3.normalize ⟨3, -4, 0⟩).x, 1 / (RVec3.normalize ⟨3, -4, 0⟩).y,
          1 / (RVec3.normalize ⟨3, -4, 0⟩).z⟩ ∧
      (RRay.new ⟨0, 0, 0⟩ ⟨3, -4, 0⟩).sign_x = (if (⟨3, -4, 0⟩ : RVec3).x < 0 then 1 else 0) ∧
      (RRay.new ⟨0, 0, 0⟩ ⟨3, -4, 0⟩).sign_y = (if (⟨3, -4, 0⟩ : RVec3).y < 0 then 1 else 0) ∧
      (RRay.new ⟨0, 0, 0⟩ ⟨3, -4, 0⟩).sign_z = (if (⟨3, -4, 0⟩ : RVec3).z < 0 then 1 else 0)) :=
⟨Or.inl (by norm_num), ray_new_caches ⟨0, 0, 0⟩ ⟨3, -4, 0⟩ (Or.inl (by norm_num))⟩
